import Mathlib

/-!
Shallow embedding of the interactive MST correlation-network renderer of
`src/script.js` (the `drawMSTGraph` function, its inner `redrawGraph`, and
its mouse handlers), together with proofs of the specification claims.

Modelling conventions:
* JavaScript numbers are idealised as exact rationals (`ℚ`) for edge
  attributes and as real numbers (`ℝ`) for geometry (the layout uses
  `Math.cos` / `Math.sin` / `Math.sqrt`).
* A JS value that may be `undefined` or `NaN` is an `Option`: the MST edge
  `distance` field is `Option ℚ`, where `none` stands for a missing or NaN
  distance (in JS, `isNaN(undefined)` is `true`, so both take the fallback
  branch of the weight computation).
* A JS string-or-null variable (`hoveredNode`) is `Option String`.  JS
  truthiness tests such as `if (hoveredNode)` are modelled exactly: both
  `null` and the empty string are falsy.
* The canvas is modelled as the list of drawing commands issued since the
  last full-surface clear; `redrawGraph` produces the command list of one
  repaint.  Crashing accesses (an unguarded lookup of a missing position)
  are modelled by `Option`-valued results, `none` meaning a thrown
  `TypeError`.
-/

namespace StockGraphix

/-- An MST edge as built by the loader: `{u: row.u, v: row.v, corr: parseFloat(row.corr) || 0,
distance: parseFloat(row.distance) || 0}`.  `distance` is `Option ℚ` so the renderer's own
`isNaN` guard can be modelled over arbitrary edge input (`none` = undefined/NaN). -/
structure Edge where
  u : String
  v : String
  corr : ℚ
  distance : Option ℚ

/-- A recommendation row: `{ticker, momentum, avgCorr, degree, score, label}`. -/
structure Recommendation where
  ticker : String
  momentum : ℚ
  avgCorr : ℚ
  degree : ℤ
  score : ℚ
  label : String

/-- Adding one element to a JS `Set` viewed as an insertion-ordered list:
`nodes.add(s)` keeps the list unchanged when `s` is already present and
appends `s` at the end otherwise. -/
def insertNew (acc : List String) (s : String) : List String :=
  if s ∈ acc then acc else acc ++ [s]

/-- The node list of `drawMSTGraph`:
`const nodes = new Set(); stockData.mstEdges.forEach(edge => { nodes.add(edge.u); nodes.add(edge.v); });
graphNodeList = Array.from(nodes);` — a JS `Set` iterates in insertion order. -/
def collectNodes (edges : List Edge) : List String :=
  edges.foldl (fun acc e => insertNew (insertNew acc e.u) e.v) []

/-- All endpoints of the edge list in evaluation order (`u` before `v` of each edge). -/
def endpoints (edges : List Edge) : List String :=
  edges.flatMap (fun e => [e.u, e.v])

/-- Modelled from the spec: "collect the set of unique endpoints across all edges,
preserving first-seen order" — the canonical first-seen deduplication of a list,
used to compare `collectNodes` against the spec's words. -/
def firstSeen (l : List String) : List String :=
  l.foldl insertNew []

/-- The displayed edge weight of `redrawGraph`:
`const weightValue = !isNaN(edge.distance) && edge.distance !== 0 ? edge.distance : edge.corr;`
(`none` distance means undefined/NaN, which fails the `!isNaN` test). -/
def weightValue (distance : Option ℚ) (corr : ℚ) : ℚ :=
  match distance with
  | some d => if d ≠ 0 then d else corr
  | none => corr

/-- The highlight test of `redrawGraph`:
`const isHighlighted = hoveredNode && (edge.u === hoveredNode || edge.v === hoveredNode);`
JS truthiness: when `hoveredNode` is `null` or the empty string the conjunction
short-circuits to a falsy value. -/
def hoverMatches (hovered : Option String) (e : Edge) : Bool :=
  match hovered with
  | none => false
  | some h => if h = "" then false else (e.u = h ∨ e.v = h : Bool)

/-- Edge opacity: `const alpha = isHighlighted ? 1.0 : Math.max(0.3, corr);`
where `corr = Math.abs(edge.corr)`. -/
def edgeAlpha (hovered : Option String) (e : Edge) : ℚ :=
  if hoverMatches hovered e then 1 else max 0.3 |e.corr|

/-- Edge stroke width: `const lineWidth = isHighlighted ? 3 : 2;`. -/
def edgeLineWidth (hovered : Option String) (e : Edge) : ℚ :=
  if hoverMatches hovered e then 3 else 2

/-- The click handler, as the list of `showStockDetails` invocations it makes:
`canvas.addEventListener('click', (e) => { if (hoveredNode) showStockDetails(hoveredNode); });`
JS truthiness again: `null` and `""` are both falsy, so no call is made for either. -/
def clickCallbacks (hoveredNode : Option String) : List String :=
  match hoveredNode with
  | none => []
  | some s => if s = "" then [] else [s]

noncomputable section

/-- Canvas intrinsic width: `canvas.width = 800`. -/
def canvasWidth : ℝ := 800

/-- Canvas intrinsic height: `canvas.height = 500`. -/
def canvasHeight : ℝ := 500

/-- Layout centre x: `const centerX = width / 2;`. -/
def centerX : ℝ := canvasWidth / 2

/-- Layout centre y: `const centerY = height / 2;`. -/
def centerY : ℝ := canvasHeight / 2

/-- Layout circle radius: `const radius = Math.min(width, height) * 0.35;`. -/
def layoutRadius : ℝ := min canvasWidth canvasHeight * 0.35

/-- Angle of the i-th of N nodes: `const angle = (2 * Math.PI * i) / graphNodeList.length;`. -/
def nodeAngle (N i : ℕ) : ℝ := (2 * Real.pi * i) / N

/-- Position assigned to the i-th of N nodes:
`{x: centerX + radius * Math.cos(angle), y: centerY + radius * Math.sin(angle)}`. -/
def nodePosition (N i : ℕ) : ℝ × ℝ :=
  (centerX + layoutRadius * Real.cos (nodeAngle N i),
   centerY + layoutRadius * Real.sin (nodeAngle N i))

/-- The body of `graphNodeList.forEach((node, i) => { graphPositions[node] = ... })`,
recursing over the remaining nodes with the running index `i`; a later
assignment to the same key overwrites an earlier one, as in a JS object. -/
def assignPositions (N : ℕ) (i : ℕ) (nodes : List String)
    (m : String → Option (ℝ × ℝ)) : String → Option (ℝ × ℝ) :=
  match nodes with
  | [] => m
  | node :: rest =>
      assignPositions N (i + 1) rest
        (fun s => if s = node then some (nodePosition N i) else m s)

/-- The position map after the layout loop of `drawMSTGraph`.  `init` is the
content of the module-global `graphPositions` object before the loop (it is
never cleared by the source, so it may hold entries from an earlier call). -/
def buildPositions (init : String → Option (ℝ × ℝ)) (nodes : List String) :
    String → Option (ℝ × ℝ) :=
  assignPositions nodes.length 0 nodes init

/-- Device-to-surface coordinate conversion of the mousemove handler:
`const scaleX = canvas.width / rect.width; ... const x = (e.clientX - rect.left) * scaleX;`
and likewise for y. -/
def pointerToLogical (clientX clientY rectLeft rectTop rectW rectH : ℝ) : ℝ × ℝ :=
  ((clientX - rectLeft) * (canvasWidth / rectW),
   (clientY - rectTop) * (canvasHeight / rectH))

/-- Pointer-to-node distance of the mousemove handler:
`const distance = Math.sqrt((x - pos.x) ** 2 + (y - pos.y) ** 2);`. -/
def nodeDistance (pos : String → ℝ × ℝ) (x y : ℝ) (node : String) : ℝ :=
  Real.sqrt ((x - (pos node).1) ^ 2 + (y - (pos node).2) ^ 2)

/-- The hover resolution loop of the mousemove handler, over a total position
map (totality is established separately, see `C10`):
`let foundNode = null; graphNodeList.forEach(node => { ... if (distance <= 20) foundNode = node; });`. -/
def findHoverNode (pos : String → ℝ × ℝ) (nodes : List String) (x y : ℝ) :
    Option String :=
  nodes.foldl
    (fun foundNode node =>
      if nodeDistance pos x y node ≤ 20 then some node else foundNode)
    none

/-- The resolution phase of the mousemove handler: the hover loop run at the
converted surface-logical coordinates of the pointer event. -/
def resolveHover (pos : String → ℝ × ℝ) (nodes : List String)
    (clientX clientY rectLeft rectTop rectW rectH : ℝ) : Option String :=
  let p := pointerToLogical clientX clientY rectLeft rectTop rectW rectH
  findHoverNode pos nodes p.1 p.2

/-- The full mousemove handler: convert coordinates, resolve the hover hit, and
update `hoveredNode` and repaint only when the hit changed:
`if (foundNode !== hoveredNode) { hoveredNode = foundNode; redrawGraph(); }`.
Returns the new `hoveredNode` and whether a repaint was invoked. -/
def mousemove (pos : String → ℝ × ℝ) (nodes : List String)
    (hoveredNode : Option String)
    (clientX clientY rectLeft rectTop rectW rectH : ℝ) :
    Option String × Bool :=
  let foundNode := resolveHover pos nodes clientX clientY rectLeft rectTop rectW rectH
  if foundNode ≠ hoveredNode then (foundNode, true) else (hoveredNode, false)

/-- The hover resolution loop over the real, partial position map, with the
unguarded lookup `const pos = graphPositions[node];` made explicit: accessing
`pos.x` on a missing entry throws, modelled as `none`. -/
def findHoverNodeChecked (pos : String → Option (ℝ × ℝ)) (nodes : List String)
    (x y : ℝ) : Option (Option String) :=
  nodes.foldlM
    (fun foundNode node =>
      (pos node).map fun p =>
        if Real.sqrt ((x - p.1) ^ 2 + (y - p.2) ^ 2) ≤ 20 then some node
        else foundNode)
    none

/-- One drawing command issued to the 2D context.  String arguments are the
fill/stroke style; numeric text (the edge-weight label, the hover momentum
readout) is kept as its numeric value rather than its `toFixed` rendering. -/
inductive DrawCmd where
  | clearRect (x y w h : ℝ)
  | strokeLine (x1 y1 x2 y2 : ℝ) (alpha : ℚ) (lineWidth : ℚ)
  | fillRect (x y w h : ℝ) (style : String)
  | weightText (value : ℚ) (x y : ℝ) (style : String)
  | fillCircle (x y : ℝ) (r : ℚ) (style : String)
  | strokeCircle (x y : ℝ) (r : ℚ) (style : String) (lineWidth : ℚ)
  | fillText (text : String) (x y : ℝ) (style : String)
  | momentumText (momentum : ℚ) (x y : ℝ) (style : String)

/-- Commands of the edge loop of `redrawGraph` for one edge: resolve both
endpoint positions and silently skip the edge if either is missing
(`if (u && v)`); stroke the line with the highlight-dependent alpha and
width; then draw the weight label at the midpoint over its background patch.
`measure` stands for `graphCtx.measureText(label).width` on the label of a
weight value (a pure function of the label under a fixed font).  The source's
`if (!isNaN(weightValue))` guard around the label is always true here because
`corr` is modelled as a rational (a number), so the label block is emitted
unconditionally. -/
def edgeCommands (pos : String → Option (ℝ × ℝ)) (hovered : Option String)
    (measure : ℚ → ℝ) (e : Edge) : List DrawCmd :=
  match pos e.u, pos e.v with
  | some u, some v =>
      let isHighlighted := hoverMatches hovered e
      let w := weightValue e.distance e.corr
      let midX := (u.1 + v.1) / 2
      let midY := (u.2 + v.2) / 2
      let textWidth := measure w
      [DrawCmd.strokeLine u.1 u.2 v.1 v.2 (edgeAlpha hovered e) (edgeLineWidth hovered e),
       DrawCmd.fillRect (midX - textWidth / 2 - 4) (midY - 8) (textWidth + 4 * 2) 16
         "rgba(13, 17, 23, 0.85)",
       DrawCmd.weightText w midX midY (if isHighlighted then "#58a6ff" else "#8b949e")]
  | _, _ => []

/-- Commands of the node loop of `redrawGraph` for one node, given its resolved
position (the source reads `graphPositions[node]` unguarded; see
`nodeCommandsChecked` for the lookup): recommendation lookup, colour choice,
circle fill and outline, label, and the extra hover readout.  `displayName`
uses `String.replace`, which replaces every occurrence of ".NS" where JS
`node.replace('.NS', '')` replaces only the first — immaterial for tickers
with at most one market suffix and unused by any claim. -/
def nodeCommands (recs : List Recommendation) (hovered : Option String)
    (node : String) (p : ℝ × ℝ) : List DrawCmd :=
  let stock := recs.find? (fun s => s.ticker = node)
  let label := match stock with | some s => s.label | none => "HOLD"
  let isHovered := hovered = some node
  let nodeColor :=
    if label = "BUY" then "#3fb950"
    else if label = "AVOID" then "#f85149"
    else "#8b949e"
  let nodeRadius : ℚ := if isHovered then 20 else 15
  let displayName := node.replace ".NS" ""
  [DrawCmd.fillCircle p.1 p.2 nodeRadius nodeColor,
   DrawCmd.strokeCircle p.1 p.2 nodeRadius (if isHovered then "#58a6ff" else "#161b22")
     (if isHovered then 3 else 2),
   DrawCmd.fillText displayName p.1 (p.2 - 30) (if isHovered then "#58a6ff" else "#e6edf3")]
  ++ (match stock with
      | some s =>
          if isHovered then
            [DrawCmd.momentumText s.momentum p.1 (p.2 + 35) "#8b949e",
             DrawCmd.fillText s.label p.1 (p.2 + 48) "#8b949e"]
          else []
      | none => [])

/-- The node loop with the unguarded position lookup made explicit: a missing
position makes the whole repaint throw (`none`). -/
def nodeCommandsChecked (pos : String → Option (ℝ × ℝ)) (recs : List Recommendation)
    (hovered : Option String) (node : String) : Option (List DrawCmd) :=
  (pos node).map (nodeCommands recs hovered node)

/-- The fixed legend block drawn at the end of `redrawGraph`. -/
def legendCommands : List DrawCmd :=
  [DrawCmd.fillText "BUY" 20 (canvasHeight - 50) "#8b949e",
   DrawCmd.fillText "HOLD" 20 (canvasHeight - 35) "#8b949e",
   DrawCmd.fillText "AVOID" 20 (canvasHeight - 20) "#8b949e",
   DrawCmd.fillCircle 10 (canvasHeight - 50) 5 "#3fb950",
   DrawCmd.fillCircle 10 (canvasHeight - 35) 5 "#8b949e",
   DrawCmd.fillCircle 10 (canvasHeight - 20) 5 "#f85149"]

/-- One repaint (`redrawGraph`): clear the full surface, draw every edge, then
every node, then the legend.  `none` models the `TypeError` thrown when a node
of `nodeList` has no position (never reachable from `drawMSTGraph`, see `C10`). -/
def redrawGraph (edges : List Edge) (nodeList : List String)
    (pos : String → Option (ℝ × ℝ)) (recs : List Recommendation)
    (hovered : Option String) (measure : ℚ → ℝ) : Option (List DrawCmd) :=
  (nodeList.mapM (nodeCommandsChecked pos recs hovered)).map fun nodeCmds =>
    DrawCmd.clearRect 0 0 canvasWidth canvasHeight
      :: (edges.flatMap (edgeCommands pos hovered measure)
          ++ nodeCmds.flatMap id
          ++ legendCommands)

/-- Effect of one command on the visible surface contents, abstracted as the
draw commands still visible: a clear of the full intrinsic surface erases
everything, any other command paints on top. -/
def applyCmd (surface : List DrawCmd) (c : DrawCmd) : List DrawCmd :=
  match c with
  | DrawCmd.clearRect x y w h =>
      if x = 0 ∧ y = 0 ∧ w = canvasWidth ∧ h = canvasHeight then []
      else surface ++ [c]
  | _ => surface ++ [c]

/-- Painting a command list onto a surface in order. -/
def paint (surface : List DrawCmd) (cmds : List DrawCmd) : List DrawCmd :=
  cmds.foldl applyCmd surface

/-- The whole `drawMSTGraph` entry point, as the commands of its initial paint:
`if (!placeholder || stockData.mstEdges.length === 0) return;` then build the
node list and positions and call `redrawGraph()`.  `init` is the pre-existing
content of the global `graphPositions`, `hovered` the pre-existing global
`hoveredNode` (neither is reset by the source before the initial paint). -/
def drawMSTGraph (edges : List Edge) (recs : List Recommendation)
    (init : String → Option (ℝ × ℝ)) (hovered : Option String)
    (measure : ℚ → ℝ) : Option (List DrawCmd) :=
  if edges.length = 0 then some []
  else
    redrawGraph edges (collectNodes edges)
      (buildPositions init (collectNodes edges)) recs hovered measure

end

/-! ## Properties of the node-list builder -/

theorem mem_insertNew {acc : List String} {a s : String} :
    s ∈ insertNew acc a ↔ s ∈ acc ∨ s = a := by
  unfold insertNew
  by_cases h : a ∈ acc
  · simp only [if_pos h]
    constructor
    · exact Or.inl
    · rintro (hs | rfl)
      · exact hs
      · exact h
  · simp [if_neg h]

theorem nodup_insertNew {acc : List String} (h : acc.Nodup) (a : String) :
    (insertNew acc a).Nodup := by
  unfold insertNew
  by_cases ha : a ∈ acc
  · simpa [if_pos ha]
  · rw [if_neg ha]
    simp only [List.nodup_append, List.nodup_cons, List.nodup_nil,
      List.disjoint_singleton]
    exact ⟨h, by simpa using ha⟩

theorem nodup_foldl_insertNew :
    ∀ (l : List String) (acc : List String), acc.Nodup →
      (l.foldl insertNew acc).Nodup := by
  intro l
  induction l with
  | nil => intro acc h; simpa
  | cons a l ih => intro acc h; exact ih _ (nodup_insertNew h a)

theorem mem_foldl_insertNew :
    ∀ (l : List String) (acc : List String) (s : String),
      s ∈ l.foldl insertNew acc ↔ s ∈ acc ∨ s ∈ l := by
  intro l
  induction l with
  | nil => simp
  | cons a l ih =>
      intro acc s
      rw [List.foldl_cons, ih, mem_insertNew]
      constructor
      · rintro ((h | rfl) | h)
        · exact Or.inl h
        · exact Or.inr (List.mem_cons_self _ _)
        · exact Or.inr (List.mem_cons_of_mem _ h)
      · rintro (h | h)
        · exact Or.inl (Or.inl h)
        · rcases List.mem_cons.mp h with rfl | h
          · exact Or.inl (Or.inr rfl)
          · exact Or.inr h

theorem collectNodes_foldl :
    ∀ (edges : List Edge) (acc : List String),
      edges.foldl (fun acc e => insertNew (insertNew acc e.u) e.v) acc
        = (endpoints edges).foldl insertNew acc := by
  intro edges
  induction edges with
  | nil => intro acc; simp [endpoints]
  | cons e es ih =>
      intro acc
      have h1 : endpoints (e :: es) = e.u :: e.v :: endpoints es := by
        simp [endpoints]
      rw [List.foldl_cons, ih, h1, List.foldl_cons, List.foldl_cons]

/-- C3: the node list produced by the graph builder is exactly the set of
unique endpoints (sources and targets) appearing in the edge list, with no
duplicates, in first-seen order (it equals the canonical first-seen
deduplication of the endpoint stream). -/
theorem collectNodes_unique_endpoints (edges : List Edge) :
    (collectNodes edges).Nodup
    ∧ (∀ s, s ∈ collectNodes edges ↔ ∃ e ∈ edges, s = e.u ∨ s = e.v)
    ∧ collectNodes edges = firstSeen (endpoints edges) := by
  have hfold : collectNodes edges = firstSeen (endpoints edges) := by
    unfold collectNodes firstSeen
    exact collectNodes_foldl edges []
  refine ⟨?_, ?_, hfold⟩
  · unfold collectNodes
    rw [collectNodes_foldl edges []]
    exact nodup_foldl_insertNew _ _ List.nodup_nil
  · intro s
    unfold collectNodes
    rw [collectNodes_foldl edges [], mem_foldl_insertNew]
    simp [endpoints, eq_comm]

/-! ## Properties of the hover hit-test -/

theorem foldl_hit_lastwins {α : Type*} (P : α → Prop) [DecidablePred P]
    (l : List α) (acc : Option α) :
    l.foldl (fun found a => if P a then some a else found) acc
      = ((l.filter fun a => decide (P a)).getLast?).elim acc some := by
  induction l using List.reverseRecOn with
  | nil => rfl
  | append_singleton l a ih =>
      rw [List.foldl_append, List.foldl_cons, List.foldl_nil, ih]
      by_cases h : P a
      · have hf : (l ++ [a]).filter (fun x => decide (P x))
            = (l.filter fun x => decide (P x)) ++ [a] := by
          simp [List.filter_append, h]
        rw [if_pos h, hf, List.getLast?_concat]
        rfl
      · have hf : (l ++ [a]).filter (fun x => decide (P x))
            = l.filter fun x => decide (P x) := by
          simp [List.filter_append, h]
        rw [if_neg h, hf]

theorem findHoverNode_eq_getLast (pos : String → ℝ × ℝ) (nodes : List String)
    (x y : ℝ) :
    findHoverNode pos nodes x y
      = (nodes.filter fun n => decide (nodeDistance pos x y n ≤ 20)).getLast? := by
  have h := foldl_hit_lastwins (fun n => nodeDistance pos x y n ≤ 20) nodes none
  have h2 : ((nodes.filter fun n => decide (nodeDistance pos x y n ≤ 20)).getLast?).elim
        (none : Option String) some
      = (nodes.filter fun n => decide (nodeDistance pos x y n ≤ 20)).getLast? := by
    cases (nodes.filter fun n => decide (nodeDistance pos x y n ≤ 20)).getLast? <;> rfl
  exact h.trans h2

/-- C1: for a pointer-move event at device coordinates converted to
surface-logical coordinates, the hover resolution returns the last node in
node-list iteration order whose position is within Euclidean distance 20 of
the pointer; it returns no node when every node is farther than 20; a pointer
exactly at a node's center satisfies the hit test for that node, so the
resolution then returns some node; and the mousemove handler's new state is
exactly this resolution applied to the converted coordinates. -/
theorem hover_resolution_last_within_20 (pos : String → ℝ × ℝ)
    (nodes : List String) (x y : ℝ) :
    findHoverNode pos nodes x y
        = (nodes.filter fun n => decide (nodeDistance pos x y n ≤ 20)).getLast?
    ∧ ((∀ n ∈ nodes, 20 < nodeDistance pos x y n) →
        findHoverNode pos nodes x y = none)
    ∧ (∀ n ∈ nodes, pos n = (x, y) →
        nodeDistance pos x y n ≤ 20 ∧ findHoverNode pos nodes x y ≠ none)
    ∧ (∀ (hov : Option String) (clientX clientY rectLeft rectTop rectW rectH : ℝ),
        pointerToLogical clientX clientY rectLeft rectTop rectW rectH = (x, y) →
        (mousemove pos nodes hov clientX clientY rectLeft rectTop rectW rectH).1
          = findHoverNode pos nodes x y) := by
  refine ⟨findHoverNode_eq_getLast pos nodes x y, ?_, ?_, ?_⟩
  · intro hfar
    rw [findHoverNode_eq_getLast]
    have hnil : nodes.filter (fun n => decide (nodeDistance pos x y n ≤ 20)) = [] := by
      rw [List.filter_eq_nil_iff]
      intro n hn
      simp only [decide_eq_true_eq, not_le]
      exact hfar n hn
    rw [hnil]
    rfl
  · intro n hn hcenter
    have h1 : (pos n).1 = x := by rw [hcenter]
    have h2 : (pos n).2 = y := by rw [hcenter]
    have hdist : nodeDistance pos x y n ≤ 20 := by
      unfold nodeDistance
      rw [h1, h2, sub_self, sub_self]
      norm_num
    refine ⟨hdist, ?_⟩
    rw [findHoverNode_eq_getLast]
    intro hnone
    have hnil := List.getLast?_eq_none_iff.mp hnone
    have : n ∈ nodes.filter fun n => decide (nodeDistance pos x y n ≤ 20) :=
      List.mem_filter.mpr ⟨hn, by simpa using hdist⟩
    rw [hnil] at this
    exact List.not_mem_nil n this
  · intro hov clientX clientY rectLeft rectTop rectW rectH hconv
    unfold mousemove resolveHover
    rw [hconv]
    by_cases h : findHoverNode pos nodes x y ≠ hov
    · rw [if_pos h]
    · rw [if_neg h]
      push_neg at h
      exact h.symm

theorem mousemove_fst (pos : String → ℝ × ℝ) (nodes : List String)
    (hov : Option String) (clientX clientY rectLeft rectTop rectW rectH : ℝ) :
    (mousemove pos nodes hov clientX clientY rectLeft rectTop rectW rectH).1
      = resolveHover pos nodes clientX clientY rectLeft rectTop rectW rectH := by
  unfold mousemove
  by_cases h : resolveHover pos nodes clientX clientY rectLeft rectTop rectW rectH ≠ hov
  · rw [if_pos h]
  · rw [if_neg h]
    push_neg at h
    exact h.symm

theorem mousemove_snd (pos : String → ℝ × ℝ) (nodes : List String)
    (hov : Option String) (clientX clientY rectLeft rectTop rectW rectH : ℝ) :
    (mousemove pos nodes hov clientX clientY rectLeft rectTop rectW rectH).2 = true
      ↔ resolveHover pos nodes clientX clientY rectLeft rectTop rectW rectH ≠ hov := by
  unfold mousemove
  by_cases h : resolveHover pos nodes clientX clientY rectLeft rectTop rectW rectH ≠ hov
  · rw [if_pos h]
    simpa
  · rw [if_neg h]
    simpa using h

/-- C2: a pointer-move event invokes a repaint if and only if the resolved hit
differs from the current `hoveredNode`; after an event the stored state equals
the resolved hit, so of two consecutive events resolving to the same node
(including both resolving to none) the second never repaints, and together
they repaint at most once. -/
theorem repaint_iff_hover_changed (pos : String → ℝ × ℝ) (nodes : List String)
    (hov : Option String) (cX₁ cY₁ cX₂ cY₂ rectLeft rectTop rectW rectH : ℝ) :
    ((mousemove pos nodes hov cX₁ cY₁ rectLeft rectTop rectW rectH).2 = true
        ↔ resolveHover pos nodes cX₁ cY₁ rectLeft rectTop rectW rectH ≠ hov)
    ∧ (mousemove pos nodes hov cX₁ cY₁ rectLeft rectTop rectW rectH).1
        = resolveHover pos nodes cX₁ cY₁ rectLeft rectTop rectW rectH
    ∧ (resolveHover pos nodes cX₁ cY₁ rectLeft rectTop rectW rectH
          = resolveHover pos nodes cX₂ cY₂ rectLeft rectTop rectW rectH →
        (mousemove pos nodes
            (mousemove pos nodes hov cX₁ cY₁ rectLeft rectTop rectW rectH).1
            cX₂ cY₂ rectLeft rectTop rectW rectH).2 = false
        ∧ (mousemove pos nodes hov cX₁ cY₁ rectLeft rectTop rectW rectH).2.toNat
            + (mousemove pos nodes
                (mousemove pos nodes hov cX₁ cY₁ rectLeft rectTop rectW rectH).1
                cX₂ cY₂ rectLeft rectTop rectW rectH).2.toNat ≤ 1) := by
  refine ⟨mousemove_snd pos nodes hov cX₁ cY₁ rectLeft rectTop rectW rectH,
    mousemove_fst pos nodes hov cX₁ cY₁ rectLeft rectTop rectW rectH, ?_⟩
  intro hsame
  have hstate := mousemove_fst pos nodes hov cX₁ cY₁ rectLeft rectTop rectW rectH
  have hsnd : (mousemove pos nodes
      (mousemove pos nodes hov cX₁ cY₁ rectLeft rectTop rectW rectH).1
      cX₂ cY₂ rectLeft rectTop rectW rectH).2 = false := by
    have hiff := mousemove_snd pos nodes
      (mousemove pos nodes hov cX₁ cY₁ rectLeft rectTop rectW rectH).1
      cX₂ cY₂ rectLeft rectTop rectW rectH
    cases hb : (mousemove pos nodes
        (mousemove pos nodes hov cX₁ cY₁ rectLeft rectTop rectW rectH).1
        cX₂ cY₂ rectLeft rectTop rectW rectH).2
    · rfl
    · exfalso
      apply hiff.mp hb
      rw [hstate, ← hsame]
  refine ⟨hsnd, ?_⟩
  rw [hsnd]
  cases (mousemove pos nodes hov cX₁ cY₁ rectLeft rectTop rectW rectH).2 <;> simp

/-! ## The click handler -/

/-- C5 counterexample: with the interaction state focused on the node whose id
is the empty string, the click handler invokes the callback zero times, not
once — `if (hoveredNode)` treats the empty string as falsy. -/
theorem click_focused_empty_string_no_callback :
    clickCallbacks (some "") = [] ∧ ([] : List String) ≠ [""] := by
  constructor
  · rfl
  · simp

/-- C5 amended: on click, a state focused on a node with a non-empty id
invokes the callback exactly once with that id; an idle state invokes it zero
times; and (the JS-truthiness exception forced by the counterexample) a state
focused on the empty-string id also invokes it zero times. -/
theorem click_select_callback (node : String) :
    (node ≠ "" → clickCallbacks (some node) = [node])
    ∧ clickCallbacks none = []
    ∧ clickCallbacks (some "") = [] := by
  refine ⟨?_, rfl, rfl⟩
  intro h
  simp [clickCallbacks, h]

/-! ## The displayed edge weight -/

/-- C6: the weight value rendered at the edge midpoint is the edge's distance
when that is a defined, non-zero number, and otherwise falls back to the
edge's correlation; with distance 0 (or undefined) and correlation 0.42 the
rendered value is 0.42, which is neither 0 nor blank (the label command is
emitted whenever both endpoints have positions). -/
theorem edge_weight_distance_fallback (d c : ℚ) :
    (d ≠ 0 → weightValue (some d) c = d)
    ∧ weightValue (some 0) c = c
    ∧ weightValue none c = c
    ∧ weightValue (some 0) (42 / 100) = 42 / 100
    ∧ weightValue none (42 / 100) = 42 / 100
    ∧ (42 / 100 : ℚ) ≠ 0
    ∧ (∀ (pos : String → Option (ℝ × ℝ)) (hovered : Option String)
          (measure : ℚ → ℝ) (e : Edge) (u v : ℝ × ℝ),
        pos e.u = some u → pos e.v = some v →
        DrawCmd.weightText (weightValue e.distance e.corr)
            ((u.1 + v.1) / 2) ((u.2 + v.2) / 2)
            (if hoverMatches hovered e then "#58a6ff" else "#8b949e")
          ∈ edgeCommands pos hovered measure e) := by
  refine ⟨fun h => by simp [weightValue, h], by simp [weightValue],
    rfl, by simp [weightValue], rfl, by norm_num, ?_⟩
  intro pos hovered measure e u v hu hv
  unfold edgeCommands
  rw [hu, hv]
  simp

/-! ## Edge visual weight (highlight and opacity floor) -/

/-- C7 counterexample: with `hoveredNode` set to the empty-string id and an
edge whose source endpoint is that same empty string (correlation 0), the
edge's endpoint equals the hovered node yet the edge is drawn at opacity
3/10 with base width 2, not at maximum opacity 1 with width 3 — the
`hoveredNode &&` guard treats the empty string as falsy. -/
theorem edge_highlight_empty_string_cex :
    (Edge.mk "" "X" 0 none).u = ""
    ∧ edgeAlpha (some "") (Edge.mk "" "X" 0 none) = 3 / 10
    ∧ (3 / 10 : ℚ) ≠ 1
    ∧ edgeLineWidth (some "") (Edge.mk "" "X" 0 none) = 2
    ∧ (2 : ℚ) ≠ 3 := by
  refine ⟨rfl, ?_, by norm_num, ?_, by norm_num⟩
  · unfold edgeAlpha hoverMatches
    norm_num
  · unfold edgeLineWidth hoverMatches
    norm_num

/-- C7 amended: during repaint an edge is highlighted — maximum opacity 1 and
increased width 3 — exactly when `hoveredNode` holds a non-empty id equal to
one of its endpoints; any other edge is drawn at opacity `max 0.3 |corr|`
with base width 2, so a non-highlighted edge's opacity is never below 3/10;
and the stroke command emitted for an edge with resolved endpoints carries
exactly these values. -/
theorem edge_visual_weight (hovered : Option String) (e : Edge) :
    (∀ h, hovered = some h → h ≠ "" → (e.u = h ∨ e.v = h) →
        edgeAlpha hovered e = 1 ∧ edgeLineWidth hovered e = 3)
    ∧ (hoverMatches hovered e = false →
        edgeAlpha hovered e = max 0.3 |e.corr| ∧ edgeLineWidth hovered e = 2)
    ∧ (hoverMatches hovered e = false → 3 / 10 ≤ edgeAlpha hovered e)
    ∧ (∀ (pos : String → Option (ℝ × ℝ)) (measure : ℚ → ℝ) (u v : ℝ × ℝ),
        pos e.u = some u → pos e.v = some v →
        DrawCmd.strokeLine u.1 u.2 v.1 v.2 (edgeAlpha hovered e)
            (edgeLineWidth hovered e)
          ∈ edgeCommands pos hovered measure e) := by
  refine ⟨?_, ?_, ?_, ?_⟩
  · rintro h rfl hne hmatch
    have hm : hoverMatches (some h) e = true := by
      show (if h = "" then false else (e.u = h ∨ e.v = h : Bool)) = true
      rw [if_neg hne]
      rcases hmatch with h1 | h1 <;> simp [h1]
    exact ⟨by simp [edgeAlpha, hm], by simp [edgeLineWidth, hm]⟩
  · intro hm
    exact ⟨by simp [edgeAlpha, hm], by simp [edgeLineWidth, hm]⟩
  · intro hm
    rw [show edgeAlpha hovered e = max 0.3 |e.corr| by simp [edgeAlpha, hm]]
    have : (3 / 10 : ℚ) ≤ 0.3 := by norm_num
    exact le_trans this (le_max_left _ _)
  · intro pos measure u v hu hv
    unfold edgeCommands
    rw [hu, hv]
    simp

/-! ## Empty input, repaint idempotence, and totality of the hit-test -/

/-- C8: given an empty edge list the component draws nothing and raises no
error (`drawMSTGraph` returns before creating the canvas or painting), and
the node-set builder yields the empty node set. -/
theorem empty_edges_draw_nothing (recs : List Recommendation)
    (init : String → Option (ℝ × ℝ)) (hovered : Option String)
    (measure : ℚ → ℝ) :
    drawMSTGraph [] recs init hovered measure = some []
    ∧ collectNodes [] = [] :=
  ⟨rfl, rfl⟩

theorem applyCmd_clear_full (s : List DrawCmd) :
    applyCmd s (DrawCmd.clearRect 0 0 canvasWidth canvasHeight) = [] := by
  simp [applyCmd]

/-- C9: a repaint's command list begins with a clear of the full surface, so
painting it is independent of the surface's prior contents: the same inputs
paint the same final surface over any two starting surfaces, and repainting
twice with identical inputs leaves the surface exactly as one repaint does.
(`redrawGraph` is a pure function of its inputs, so the command list itself
is deterministic.) -/
theorem repaint_clears_first_and_idempotent (edges : List Edge)
    (nodeList : List String) (pos : String → Option (ℝ × ℝ))
    (recs : List Recommendation) (hovered : Option String) (measure : ℚ → ℝ)
    (cmds : List DrawCmd)
    (h : redrawGraph edges nodeList pos recs hovered measure = some cmds) :
    cmds.head? = some (DrawCmd.clearRect 0 0 canvasWidth canvasHeight)
    ∧ (∀ s₁ s₂, paint s₁ cmds = paint s₂ cmds)
    ∧ (∀ s, paint (paint s cmds) cmds = paint s cmds) := by
  unfold redrawGraph at h
  rw [Option.map_eq_some'] at h
  obtain ⟨ncmds, -, hc⟩ := h
  have hcmds : cmds = DrawCmd.clearRect 0 0 canvasWidth canvasHeight
      :: (edges.flatMap (edgeCommands pos hovered measure)
          ++ ncmds.flatMap id ++ legendCommands) := hc.symm
  have hpaint : ∀ s, paint s cmds
      = paint [] (edges.flatMap (edgeCommands pos hovered measure)
          ++ ncmds.flatMap id ++ legendCommands) := by
    intro s
    rw [hcmds]
    unfold paint
    rw [List.foldl_cons, applyCmd_clear_full]
  exact ⟨by rw [hcmds]; rfl,
    fun s₁ s₂ => (hpaint s₁).trans (hpaint s₂).symm,
    fun s => (hpaint _).trans (hpaint s).symm⟩

/-- Closed witness for the repaint idempotence theorem, at the concrete empty
model: painting one repaint's commands over a dirty surface equals painting
them over a blank one. -/
theorem repaint_clears_first_and_idempotent_witness :
    paint [DrawCmd.fillCircle 0 0 5 "#3fb950"]
        (DrawCmd.clearRect 0 0 canvasWidth canvasHeight :: legendCommands)
      = paint [] (DrawCmd.clearRect 0 0 canvasWidth canvasHeight :: legendCommands) := by
  have h : redrawGraph [] [] (fun _ => none) [] none (fun _ => 0)
      = some (DrawCmd.clearRect 0 0 canvasWidth canvasHeight :: legendCommands) := rfl
  exact (repaint_clears_first_and_idempotent [] [] (fun _ => none) [] none
    (fun _ => 0) _ h).2.1 [DrawCmd.fillCircle 0 0 5 "#3fb950"] []

theorem assignPositions_not_mem :
    ∀ (nodes : List String) (N i : ℕ) (m : String → Option (ℝ × ℝ)) (s : String),
      s ∉ nodes → assignPositions N i nodes m s = m s := by
  intro nodes
  induction nodes with
  | nil => intro N i m s _; rfl
  | cons node rest ih =>
      intro N i m s hs
      have hne : s ≠ node := fun h => hs (h ▸ List.mem_cons_self node rest)
      have hrest : s ∉ rest := fun h => hs (List.mem_cons_of_mem node h)
      show assignPositions N (i + 1) rest _ s = m s
      rw [ih _ _ _ _ hrest, if_neg hne]

theorem assignPositions_isSome :
    ∀ (nodes : List String) (N i : ℕ) (m : String → Option (ℝ × ℝ)) (s : String),
      s ∈ nodes → (assignPositions N i nodes m s).isSome = true := by
  intro nodes
  induction nodes with
  | nil => intro N i m s hs; exact absurd hs (List.not_mem_nil s)
  | cons node rest ih =>
      intro N i m s hs
      by_cases hr : s ∈ rest
      · exact ih _ _ _ _ hr
      · have hsn : s = node := by
          rcases List.mem_cons.mp hs with h | h
          · exact h
          · exact absurd h hr
        show (assignPositions N (i + 1) rest _ s).isSome = true
        rw [assignPositions_not_mem _ _ _ _ _ hr, if_pos hsn]
        rfl

theorem findHoverNodeChecked_foldlM_isSome (pos : String → Option (ℝ × ℝ))
    (x y : ℝ) :
    ∀ (nodes : List String), (∀ n ∈ nodes, (pos n).isSome = true) →
      ∀ acc : Option String,
        (List.foldlM (fun foundNode node =>
            (pos node).map fun p =>
              if Real.sqrt ((x - p.1) ^ 2 + (y - p.2) ^ 2) ≤ 20 then some node
              else foundNode) acc nodes).isSome = true := by
  intro nodes
  induction nodes with
  | nil => intro _ acc; rfl
  | cons node rest ih =>
      intro hall acc
      obtain ⟨p, hp⟩ := Option.isSome_iff_exists.mp
        (hall node (List.mem_cons_self node rest))
      rw [List.foldlM_cons, hp]
      exact ih (fun n hn => hall n (List.mem_cons_of_mem node hn)) _

/-- C10: after the graph is built, every node of the node list has a defined
position in the position map, whatever the map held beforehand; hence the
pointer-move handler's unguarded position lookups never hit a missing entry,
and the hover hit-test completes (throws no error) for every pointer
coordinate. -/
theorem hit_test_total (edges : List Edge)
    (init : String → Option (ℝ × ℝ)) (x y : ℝ) :
    (∀ n ∈ collectNodes edges,
        (buildPositions init (collectNodes edges) n).isSome = true)
    ∧ (findHoverNodeChecked (buildPositions init (collectNodes edges))
        (collectNodes edges) x y).isSome = true := by
  have hall : ∀ n ∈ collectNodes edges,
      (buildPositions init (collectNodes edges) n).isSome = true := by
    intro n hn
    exact assignPositions_isSome _ _ _ _ _ hn
  exact ⟨hall,
    findHoverNodeChecked_foldlM_isSome _ x y (collectNodes edges) hall none⟩

/-! ## The circular layout -/

theorem layoutRadius_eq : layoutRadius = 175 := by
  unfold layoutRadius canvasWidth canvasHeight
  rw [min_eq_right (by norm_num : (500 : ℝ) ≤ 800)]
  norm_num

theorem nodePosition_dist_center (N i : ℕ) :
    Real.sqrt (((nodePosition N i).1 - centerX) ^ 2
      + ((nodePosition N i).2 - centerY) ^ 2) = layoutRadius := by
  have hsq : ((nodePosition N i).1 - centerX) ^ 2
      + ((nodePosition N i).2 - centerY) ^ 2 = layoutRadius ^ 2 := by
    unfold nodePosition
    show (centerX + layoutRadius * Real.cos (nodeAngle N i) - centerX) ^ 2
        + (centerY + layoutRadius * Real.sin (nodeAngle N i) - centerY) ^ 2
      = layoutRadius ^ 2
    have h := Real.cos_sq_add_sin_sq (nodeAngle N i)
    nlinarith [h]
  rw [hsq, Real.sqrt_sq (by rw [layoutRadius_eq]; norm_num)]

theorem nodePosition_ne_of_lt {N i j : ℕ} (hij : i < j) (hj : j < N) :
    nodePosition N i ≠ nodePosition N j := by
  intro heq
  have hN0 : 0 < N := lt_of_le_of_lt (Nat.zero_le j) hj
  have hNr : (0 : ℝ) < N := by exact_mod_cast hN0
  have hx := congrArg Prod.fst heq
  have hy := congrArg Prod.snd heq
  simp only [nodePosition] at hx hy
  have hr := layoutRadius_eq
  have hcos : Real.cos (nodeAngle N i) = Real.cos (nodeAngle N j) := by
    rw [hr] at hx
    linarith
  have hsin : Real.sin (nodeAngle N i) = Real.sin (nodeAngle N j) := by
    rw [hr] at hy
    linarith
  have hdiff : nodeAngle N j - nodeAngle N i
      = 2 * Real.pi * ((j : ℝ) - (i : ℝ)) / N := by
    unfold nodeAngle
    field_simp
    ring
  have hsub : (0 : ℝ) < (j : ℝ) - (i : ℝ) := by
    have : (i : ℝ) < (j : ℝ) := by exact_mod_cast hij
    linarith
  have hjN : (j : ℝ) - (i : ℝ) < (N : ℝ) := by
    have hj' : (j : ℝ) < (N : ℝ) := by exact_mod_cast hj
    have : (0 : ℝ) ≤ (i : ℝ) := Nat.cast_nonneg i
    linarith
  have hpos : 0 < nodeAngle N j - nodeAngle N i := by
    rw [hdiff]
    apply div_pos _ hNr
    have := Real.pi_pos
    nlinarith
  have hlt : nodeAngle N j - nodeAngle N i < 2 * Real.pi := by
    rw [hdiff, div_lt_iff₀ hNr]
    have := Real.pi_pos
    nlinarith
  have hone : Real.cos (nodeAngle N j - nodeAngle N i) = 1 := by
    rw [Real.cos_sub, ← hcos, ← hsin]
    have := Real.sin_sq_add_cos_sq (nodeAngle N i)
    nlinarith
  have hzero := (Real.cos_eq_one_iff_of_lt_of_lt (by linarith) hlt).mp hone
  linarith

theorem assignPositions_get :
    ∀ (nodes : List String) (N i : ℕ) (m : String → Option (ℝ × ℝ)),
      nodes.Nodup → ∀ (k : ℕ) (hk : k < nodes.length),
        assignPositions N i nodes m (nodes.get ⟨k, hk⟩)
          = some (nodePosition N (i + k)) := by
  intro nodes
  induction nodes with
  | nil => intro N i m _ k hk; exact absurd hk (by simp)
  | cons node rest ih =>
      intro N i m hnd k hk
      rcases List.nodup_cons.mp hnd with ⟨hnode, hrest⟩
      cases k with
      | zero =>
          show assignPositions N (i + 1) rest _ node = _
          rw [assignPositions_not_mem _ _ _ _ _ hnode, if_pos rfl, Nat.add_zero]
      | succ k =>
          have hk' : k < rest.length := Nat.lt_of_succ_lt_succ hk
          show assignPositions N (i + 1) rest _ (rest.get ⟨k, hk'⟩) = _
          rw [ih _ _ _ hrest k hk']
          have heq : i + 1 + k = i + (k + 1) := by omega
          rw [heq]

/-- C4: the builder assigns the i-th node (0-based, in first-seen order) the
position at angle `2π·i/N` on the circle of radius 0.35 times the shorter
surface dimension around the surface centre; every assigned position lies at
distance `layoutRadius` from the centre; positions of distinct indices below
N are pairwise distinct; and consecutive angles are spaced `2π/N` apart. -/
theorem circular_layout (init : String → Option (ℝ × ℝ))
    (nodes : List String) (i : ℕ) :
    (nodes.Nodup → ∀ (hi : i < nodes.length),
        buildPositions init nodes (nodes.get ⟨i, hi⟩)
          = some (nodePosition nodes.length i))
    ∧ nodePosition nodes.length i
        = (centerX + layoutRadius * Real.cos (2 * Real.pi * i / nodes.length),
           centerY + layoutRadius * Real.sin (2 * Real.pi * i / nodes.length))
    ∧ layoutRadius = 0.35 * min canvasWidth canvasHeight
    ∧ Real.sqrt (((nodePosition nodes.length i).1 - centerX) ^ 2
          + ((nodePosition nodes.length i).2 - centerY) ^ 2) = layoutRadius
    ∧ (∀ j, i < nodes.length → j < nodes.length → i ≠ j →
        nodePosition nodes.length i ≠ nodePosition nodes.length j)
    ∧ (1 ≤ nodes.length →
        nodeAngle nodes.length (i + 1) - nodeAngle nodes.length i
          = 2 * Real.pi / nodes.length) := by
  refine ⟨?_, rfl, by unfold layoutRadius; ring,
    nodePosition_dist_center nodes.length i, ?_, ?_⟩
  · intro hnd hi
    have h := assignPositions_get nodes nodes.length 0 init hnd i hi
    rw [Nat.zero_add] at h
    exact h
  · intro j hi hj hne
    rcases lt_or_gt_of_ne hne with h | h
    · exact nodePosition_ne_of_lt h hj
    · exact (nodePosition_ne_of_lt h hi).symm
  · intro hN
    have hN' : (nodes.length : ℝ) ≠ 0 := by
      have : 0 < nodes.length := hN
      positivity
    unfold nodeAngle
    rw [div_sub_div_same]
    congr 1
    push_cast
    ring

/-- Closed witness for the layout theorem at three nodes: the second node gets
the position at angle `2π/3`, distinct from the third node's, with angular
spacing `2π/3`. -/
theorem circular_layout_witness :
    List.Nodup ["A", "B", "C"]
    ∧ buildPositions (fun _ => none) ["A", "B", "C"] "B" = some (nodePosition 3 1)
    ∧ nodePosition 3 1 ≠ nodePosition 3 2
    ∧ nodeAngle 3 2 - nodeAngle 3 1 = 2 * Real.pi / 3 := by
  have h := circular_layout (fun _ => none) ["A", "B", "C"] 1
  have hnd : List.Nodup ["A", "B", "C"] := by decide
  refine ⟨hnd, ?_, ?_, ?_⟩
  · exact h.1 hnd (by decide)
  · exact h.2.2.2.2.1 2 (by decide) (by decide) (by decide)
  · exact h.2.2.2.2.2 (by decide)

/-! ## Closed witnesses at concrete inputs -/

/-- Closed witness for the hover-resolution theorem: with one node at the
origin, a pointer at (100, 100) resolves to no node and a pointer exactly at
the node's centre resolves to some node. -/
theorem hover_resolution_witness :
    findHoverNode (fun _ => ((0 : ℝ), 0)) ["A"] 100 100 = none
    ∧ findHoverNode (fun _ => ((0 : ℝ), 0)) ["A"] 0 0 ≠ none := by
  have h := hover_resolution_last_within_20 (fun _ => ((0 : ℝ), 0)) ["A"] 100 100
  have h0 := hover_resolution_last_within_20 (fun _ => ((0 : ℝ), 0)) ["A"] 0 0
  constructor
  · apply h.2.1
    intro n _
    show 20 < Real.sqrt ((100 - 0) ^ 2 + (100 - 0) ^ 2)
    rw [Real.lt_sqrt (by norm_num)]
    norm_num
  · exact (h0.2.2.1 "A" (by simp) rfl).2

/-- Closed witness for the repaint-gating theorem: over an empty node list two
consecutive pointer moves repaint at most once in total. -/
theorem repaint_iff_hover_changed_witness :
    (mousemove (fun _ => ((0 : ℝ), 0)) [] none 0 0 0 0 800 500).2.toNat
      + (mousemove (fun _ => ((0 : ℝ), 0)) []
          (mousemove (fun _ => ((0 : ℝ), 0)) [] none 0 0 0 0 800 500).1
          5 5 0 0 800 500).2.toNat ≤ 1 :=
  ((repaint_iff_hover_changed (fun _ => ((0 : ℝ), 0)) [] none
    0 0 5 5 0 0 800 500).2.2 rfl).2

/-- Closed witness for the edge-weight theorem: an edge with distance 0 and
correlation 0.42 gets a midpoint label command carrying the value 42/100. -/
theorem edge_weight_fallback_witness :
    DrawCmd.weightText (weightValue (some 0) (42 / 100)) ((0 + 0) / 2) ((0 + 0) / 2)
        "#8b949e"
      ∈ edgeCommands (fun _ => some ((0 : ℝ), 0)) none (fun _ => 0)
          (Edge.mk "A" "B" (42 / 100) (some 0)) :=
  (edge_weight_distance_fallback 0 (42 / 100)).2.2.2.2.2.2
    (fun _ => some ((0 : ℝ), 0)) none (fun _ => 0)
    (Edge.mk "A" "B" (42 / 100) (some 0)) ((0 : ℝ), 0) ((0 : ℝ), 0) rfl rfl

/-- Closed witness for the amended edge-highlight theorem: a hovered non-empty
endpoint forces opacity 1 and width 3; an unhovered zero-correlation edge
keeps the 3/10 opacity floor. -/
theorem edge_visual_weight_witness :
    edgeAlpha (some "B") (Edge.mk "A" "B" (1 / 2) none) = 1
    ∧ edgeLineWidth (some "B") (Edge.mk "A" "B" (1 / 2) none) = 3
    ∧ (3 / 10 : ℚ) ≤ edgeAlpha none (Edge.mk "A" "B" 0 none) := by
  have h := edge_visual_weight (some "B") (Edge.mk "A" "B" (1 / 2) none)
  have h2 := edge_visual_weight none (Edge.mk "A" "B" 0 none)
  obtain ⟨ha, hb⟩ := h.1 "B" rfl (by decide) (Or.inr rfl)
  exact ⟨ha, hb, h2.2.2.1 rfl⟩

end StockGraphix
